import Mathlib

/-!
Verification of the rolling-update failure-accounting engine of
`src/main/python/apache/aurora/client/api/updater_util.py`.

The file is a shallow embedding of the two classes of that module:

* `UpdaterConfig.__init__` (the spec's `UpdateParameters.construct`) becomes
  `UpdaterConfig.construct`, returning `Except String UpdaterConfig` where the
  Python code either raises `ValueError` with a message or assigns the fields.

* `FailureThreshold` (the spec's `FailureAccountant`) becomes a structure
  holding the two limits and the counter map `_failures_by_instance`.
  The Python `collections.defaultdict(int)` is modelled as an
  insertion-ordered association list with distinct keys: reading an absent
  key yields `0` and `d[k] += 1` inserts the key with value `1` when absent,
  exactly as the defaultdict behaves inside `update_failure_counts`.
  Stored counts are naturals (the code only ever adds 1 starting from 0);
  the two limits are integers, because they flow in unvalidated from the
  configuration and may be negative.

Stateful methods are translated to explicit state passing:
`update_failure_counts` returns the result list together with the new state,
and `is_failed_update` returns its boolean together with the (unchanged)
state.  The `log.error` calls in `is_failed_update` are observational only
(no state mutation, no influence on the result) and are not modelled.
-/

set_option autoImplicit false

namespace Aurora

/-- An instance identifier: an opaque hashable key, in practice a
non-negative integer instance index. -/
abbrev InstanceId := Nat

/-- The counter map `_failures_by_instance`, a `collections.defaultdict(int)`
modelled as an insertion-ordered association list. -/
abbrev FailureMap := List (InstanceId × Nat)

/-- Reading `d[i]` from the defaultdict: the stored count, or `0` when the
key is absent. -/
def FailureMap.lookup : FailureMap → InstanceId → Nat
  | [], _ => 0
  | (k, v) :: rest, i => if k = i then v else FailureMap.lookup rest i

/-- `d[i] += 1` on the defaultdict: bump the stored count, inserting the key
with count `1` (that is, `0 + 1`) when it is absent. -/
def FailureMap.incr : FailureMap → InstanceId → FailureMap
  | [], i => [(i, 1)]
  | (k, v) :: rest, i =>
    if k = i then (k, v + 1) :: rest else (k, v) :: FailureMap.incr rest i

/-- The keys currently stored in the counter map. -/
def FailureMap.keys (m : FailureMap) : List InstanceId := m.map Prod.fst

/-- `UpdaterConfig`: the validated update parameters.  Pure data holder. -/
structure UpdaterConfig where
  batch_size : Int
  restart_threshold : Int
  watch_secs : Int
  max_total_failures : Int
  max_per_instance_failures : Int
deriving Repr, DecidableEq

/-- `UpdaterConfig.__init__`: validates the three timing/batch fields and
stores all five.  A raised `ValueError('...')` becomes `Except.error` with
the same message; note the parameter `max_per_shard_failures` is stored in
the field `max_per_instance_failures`, as in the source. -/
def UpdaterConfig.construct (batch_size restart_threshold watch_secs
    max_per_shard_failures max_total_failures : Int) : Except String UpdaterConfig :=
  if batch_size ≤ 0 then
    Except.error "Batch size should be greater than 0"
  else if restart_threshold ≤ 0 then
    Except.error "Restart Threshold should be greater than 0"
  else if watch_secs ≤ 0 then
    Except.error "Watch seconds should be greater than 0"
  else
    Except.ok ⟨batch_size, restart_threshold, watch_secs,
               max_total_failures, max_per_shard_failures⟩

/-- `FailureThreshold` (the spec's `FailureAccountant`): two immutable limits
plus the mutable counter map. -/
structure FailureThreshold where
  max_per_instance_failures : Int
  max_total_failures : Int
  failures_by_instance : FailureMap
deriving Repr, DecidableEq

/-- `FailureThreshold.__init__`: both limits stored verbatim and an empty
defaultdict. -/
def FailureThreshold.init (max_per_instance_failures max_total_failures : Int) :
    FailureThreshold :=
  ⟨max_per_instance_failures, max_total_failures, []⟩

/-- The state after the single mutation `self._failures_by_instance[i] += 1`:
the limits are untouched, only the counter map changes. -/
def FailureThreshold.bump (ft : FailureThreshold) (i : InstanceId) : FailureThreshold :=
  ⟨ft.max_per_instance_failures, ft.max_total_failures, ft.failures_by_instance.incr i⟩

/-- `FailureThreshold.update_failure_counts`: for each element of
`failed_instances`, in order, increment its counter and append it to the
result exactly when its freshly incremented count is strictly greater than
`_max_per_instance_failures`.  Returns the result list and the new state. -/
def FailureThreshold.update_failure_counts :
    FailureThreshold → List InstanceId → List InstanceId × FailureThreshold
  | ft, [] => ([], ft)
  | ft, i :: rest =>
    let r := (ft.bump i).update_failure_counts rest
    if ((ft.failures_by_instance.incr i).lookup i : Int) > ft.max_per_instance_failures then
      (i :: r.1, r.2)
    else
      r

/-- `FailureThreshold._exceeded_instance_fail_count`:
`sum(count > self._max_per_instance_failures for count in values())`, i.e.
the number of stored entries whose count is strictly over the limit. -/
def FailureThreshold.exceeded_instance_fail_count (ft : FailureThreshold) : Nat :=
  ft.failures_by_instance.countP
    (fun p => (p.2 : Int) > ft.max_per_instance_failures)

/-- `FailureThreshold.is_failed_update`: true iff the exceeded-instance count
is strictly greater than `_max_total_failures`.  The method reads but never
writes the state, so the state component of the result is the input state.
The `log.error` diagnostics emitted when the result is true are not
modelled (they do not affect state or result). -/
def FailureThreshold.is_failed_update (ft : FailureThreshold) :
    Bool × FailureThreshold :=
  (decide ((ft.exceeded_instance_fail_count : Int) > ft.max_total_failures), ft)

/-!
### Helper lemmas about the counter map
-/

@[simp] theorem FailureMap.lookup_nil (i : InstanceId) :
    FailureMap.lookup [] i = 0 := rfl

theorem FailureMap.lookup_incr_self (m : FailureMap) (i : InstanceId) :
    (m.incr i).lookup i = m.lookup i + 1 := by
  induction m with
  | nil => simp [FailureMap.incr, FailureMap.lookup]
  | cons p rest ih =>
    obtain ⟨k, v⟩ := p
    by_cases hk : k = i
    · subst hk
      simp [FailureMap.incr, FailureMap.lookup]
    · simp [FailureMap.incr, FailureMap.lookup, hk, ih]

theorem FailureMap.lookup_incr_ne (m : FailureMap) (i j : InstanceId) (h : j ≠ i) :
    (m.incr i).lookup j = m.lookup j := by
  induction m with
  | nil => simp [FailureMap.incr, FailureMap.lookup, Ne.symm h]
  | cons p rest ih =>
    obtain ⟨k, v⟩ := p
    by_cases hk : k = i
    · subst hk
      simp [FailureMap.incr, FailureMap.lookup, Ne.symm h, ih]
    · by_cases hj : k = j
      · subst hj
        simp [FailureMap.incr, FailureMap.lookup, hk]
      · simp [FailureMap.incr, FailureMap.lookup, hk, hj, ih]

theorem FailureMap.lookup_incr (m : FailureMap) (i j : InstanceId) :
    (m.incr i).lookup j = m.lookup j + (if i = j then 1 else 0) := by
  by_cases h : i = j
  · subst h
    simp [FailureMap.lookup_incr_self]
  · simp [FailureMap.lookup_incr_ne m i j (fun hc => h hc.symm), h]

/-- Keys of the map after an increment: unchanged when present, the new key
appended when absent. -/
theorem FailureMap.mem_keys_incr (m : FailureMap) (i j : InstanceId) :
    j ∈ (m.incr i).keys ↔ j ∈ m.keys ∨ j = i := by
  induction m with
  | nil => simp [FailureMap.incr, FailureMap.keys]
  | cons p rest ih =>
    obtain ⟨k, v⟩ := p
    by_cases hk : k = i
    · subst hk
      simp [FailureMap.incr, FailureMap.keys]
      tauto
    · simp [FailureMap.incr, FailureMap.keys, hk] at ih ⊢
      tauto

/-- Every stored count stays at least 1 under an increment. -/
theorem FailureMap.incr_pos (m : FailureMap) (i : InstanceId)
    (h : ∀ p ∈ m, 1 ≤ p.2) : ∀ p ∈ m.incr i, 1 ≤ p.2 := by
  induction m with
  | nil => simp [FailureMap.incr]
  | cons q rest ih =>
    obtain ⟨k, v⟩ := q
    intro p hp
    by_cases hk : k = i
    · subst hk
      simp [FailureMap.incr] at hp
      rcases hp with hp | hp
      · simp [hp]
      · exact h p (List.mem_cons_of_mem _ hp)
    · simp [FailureMap.incr, hk] at hp
      rcases hp with hp | hp
      · exact hp ▸ h (k, v) (List.mem_cons_self _ _)
      · exact ih (fun q hq => h q (List.mem_cons_of_mem _ hq)) p hp

/-- If every stored count is at least 1 and the defaultdict reads 0 at `i`,
then `i` is not a stored key. -/
theorem FailureMap.not_mem_keys_of_lookup_zero (m : FailureMap) (i : InstanceId)
    (hpos : ∀ p ∈ m, 1 ≤ p.2) (hz : m.lookup i = 0) : i ∉ m.keys := by
  induction m with
  | nil => simp [FailureMap.keys]
  | cons p rest ih =>
    obtain ⟨k, v⟩ := p
    by_cases hk : k = i
    · subst hk
      simp [FailureMap.lookup] at hz
      have := hpos (k, v) (List.mem_cons_self _ _)
      simp at this
      omega
    · simp [FailureMap.lookup, hk] at hz
      have := ih (fun q hq => hpos q (List.mem_cons_of_mem _ hq)) hz
      simp [FailureMap.keys] at this ⊢
      tauto

/-- In a map with distinct keys, the defaultdict read of a stored key
returns that key's stored value. -/
theorem FailureMap.lookup_eq_of_mem (m : FailureMap) (k : InstanceId) (v : Nat)
    (hnd : m.keys.Nodup) (hmem : (k, v) ∈ m) : m.lookup k = v := by
  induction m with
  | nil => simp at hmem
  | cons p rest ih =>
    obtain ⟨k0, v0⟩ := p
    simp [FailureMap.keys] at hnd
    rcases List.mem_cons.mp hmem with hp | hp
    · injection hp with h1 h2
      subst h1
      subst h2
      simp [FailureMap.lookup]
    · by_cases hk : k0 = k
      · subst hk
        exact absurd hp (hnd.1 v)
      · simpa [FailureMap.lookup, hk] using ih hnd.2 hp

/-!
### Helper lemmas about `update_failure_counts`
-/

@[simp] theorem FailureThreshold.update_failure_counts_nil (ft : FailureThreshold) :
    ft.update_failure_counts [] = ([], ft) := rfl

theorem FailureThreshold.update_failure_counts_cons (ft : FailureThreshold)
    (i : InstanceId) (rest : List InstanceId) :
    ft.update_failure_counts (i :: rest) =
      (if ((ft.failures_by_instance.incr i).lookup i : Int) >
            ft.max_per_instance_failures
       then (i :: ((ft.bump i).update_failure_counts rest).1,
             ((ft.bump i).update_failure_counts rest).2)
       else (ft.bump i).update_failure_counts rest) := rfl

/-- The state after a whole call: the limits are unchanged and the counter
map is the left fold of single increments over the reported instances. -/
theorem FailureThreshold.update_snd (ft : FailureThreshold) (failed : List InstanceId) :
    (ft.update_failure_counts failed).2 =
      ⟨ft.max_per_instance_failures, ft.max_total_failures,
       failed.foldl FailureMap.incr ft.failures_by_instance⟩ := by
  induction failed generalizing ft with
  | nil => rfl
  | cons i rest ih =>
    rw [FailureThreshold.update_failure_counts_cons]
    split <;> simpa [FailureThreshold.bump] using ih (ft.bump i)

/-- A call never changes the per-instance limit. -/
theorem FailureThreshold.update_max_per (ft : FailureThreshold)
    (failed : List InstanceId) :
    (ft.update_failure_counts failed).2.max_per_instance_failures =
      ft.max_per_instance_failures := by
  rw [FailureThreshold.update_snd]

/-- A call never changes the total-failure limit. -/
theorem FailureThreshold.update_max_total (ft : FailureThreshold)
    (failed : List InstanceId) :
    (ft.update_failure_counts failed).2.max_total_failures =
      ft.max_total_failures := by
  rw [FailureThreshold.update_snd]

/-- The fold of increments adds, for each key, its number of occurrences. -/
theorem FailureMap.lookup_foldl_incr (failed : List InstanceId) (m : FailureMap)
    (A : InstanceId) :
    (failed.foldl FailureMap.incr m).lookup A = m.lookup A + failed.count A := by
  induction failed generalizing m with
  | nil => simp
  | cons i rest ih =>
    by_cases h : i = A
    · subst h
      simp [ih, FailureMap.lookup_incr_self]
      omega
    · simp [ih, FailureMap.lookup_incr_ne m i A (Ne.symm h),
        List.count_cons_of_ne (by simpa using Ne.symm h)]

/-- After a call, an instance's stored count is its old count plus the
number of times it occurs in the reported batch. -/
theorem FailureThreshold.update_lookup (ft : FailureThreshold)
    (failed : List InstanceId) (A : InstanceId) :
    (ft.update_failure_counts failed).2.failures_by_instance.lookup A =
      ft.failures_by_instance.lookup A + failed.count A := by
  rw [FailureThreshold.update_snd]
  exact FailureMap.lookup_foldl_incr failed ft.failures_by_instance A

/-- Membership in the returned list: exactly the instances that occur in
this call's batch and whose count after all of this call's increments is
strictly over the per-instance limit. -/
theorem FailureThreshold.mem_update_fst_iff (ft : FailureThreshold)
    (failed : List InstanceId) (A : InstanceId) :
    A ∈ (ft.update_failure_counts failed).1 ↔
      A ∈ failed ∧
        (((ft.update_failure_counts failed).2.failures_by_instance.lookup A : Int) >
          ft.max_per_instance_failures) := by
  induction failed generalizing ft with
  | nil => simp
  | cons i rest ih =>
    have hmp : (ft.bump i).max_per_instance_failures = ft.max_per_instance_failures := rfl
    have hfin : ((ft.bump i).update_failure_counts rest).2.failures_by_instance.lookup A =
        (ft.failures_by_instance.incr i).lookup A + rest.count A :=
      FailureThreshold.update_lookup (ft.bump i) rest A
    rw [FailureThreshold.update_failure_counts_cons]
    by_cases hiA : i = A
    · subst hiA
      have hself : (ft.failures_by_instance.incr i).lookup i =
          ft.failures_by_instance.lookup i + 1 :=
        FailureMap.lookup_incr_self ft.failures_by_instance i
      by_cases hc : ((ft.failures_by_instance.incr i).lookup i : Int) >
          ft.max_per_instance_failures
      · rw [if_pos hc]
        rw [hself] at hc
        refine ⟨fun _ => ⟨List.mem_cons_self i rest, ?_⟩,
                fun _ => List.mem_cons_self i _⟩
        show ((((ft.bump i).update_failure_counts rest).2.failures_by_instance.lookup
          i : Nat) : Int) > ft.max_per_instance_failures
        rw [hfin, hself]
        push_cast at hc ⊢
        omega
      · rw [if_neg hc]
        rw [ih (ft.bump i), hmp, hfin, hself]
        rw [hself] at hc
        constructor
        · rintro ⟨hmem, hgt⟩
          exact ⟨List.mem_cons_of_mem i hmem, hgt⟩
        · rintro ⟨_, hgt⟩
          refine ⟨?_, hgt⟩
          by_contra hnot
          rw [List.count_eq_zero_of_not_mem hnot] at hgt
          push_cast at hgt hc
          omega
    · have hAi : ¬ A = i := fun h => hiA h.symm
      by_cases hc : ((ft.failures_by_instance.incr i).lookup i : Int) >
          ft.max_per_instance_failures
      · rw [if_pos hc]
        show A ∈ i :: ((ft.bump i).update_failure_counts rest).1 ↔
          A ∈ i :: rest ∧
            ((((ft.bump i).update_failure_counts rest).2.failures_by_instance.lookup
              A : Nat) : Int) > ft.max_per_instance_failures
        rw [List.mem_cons, List.mem_cons, ih (ft.bump i), hmp]
        simp [hAi]
      · rw [if_neg hc]
        rw [ih (ft.bump i), hmp]
        simp [hAi]

/-- The returned list is a subsequence of the reported batch: elements
appear in batch order, and only reported instances are returned. -/
theorem FailureThreshold.update_fst_sublist (ft : FailureThreshold)
    (failed : List InstanceId) :
    (ft.update_failure_counts failed).1.Sublist failed := by
  induction failed generalizing ft with
  | nil => simp
  | cons i rest ih =>
    rw [FailureThreshold.update_failure_counts_cons]
    split
    · exact List.Sublist.cons₂ i (ih (ft.bump i))
    · exact List.Sublist.cons i (ih (ft.bump i))

/-- Among `k` further failures of an instance that already has `c0` recorded
failures, the number whose resulting count is strictly over the limit `mp`.
Mirrors the per-occurrence check of `update_failure_counts`. -/
def occurrences_over (c0 : Nat) (k : Nat) (mp : Int) : Nat :=
  match k with
  | 0 => 0
  | Nat.succ n => (if ((c0 + 1 : Nat) : Int) > mp then 1 else 0) +
      occurrences_over (c0 + 1) n mp

/-- How often an instance appears in the returned list: once per occurrence
in the batch whose post-increment count is strictly over the limit. -/
theorem FailureThreshold.count_update_fst (ft : FailureThreshold)
    (failed : List InstanceId) (A : InstanceId) :
    (ft.update_failure_counts failed).1.count A =
      occurrences_over (ft.failures_by_instance.lookup A) (failed.count A)
        ft.max_per_instance_failures := by
  induction failed generalizing ft with
  | nil => simp [occurrences_over]
  | cons i rest ih =>
    have hmp : (ft.bump i).max_per_instance_failures = ft.max_per_instance_failures := rfl
    rw [FailureThreshold.update_failure_counts_cons]
    by_cases hiA : i = A
    · subst hiA
      have hself : (ft.failures_by_instance.incr i).lookup i =
          ft.failures_by_instance.lookup i + 1 :=
        FailureMap.lookup_incr_self ft.failures_by_instance i
      have hbump : (ft.bump i).failures_by_instance.lookup i =
          ft.failures_by_instance.lookup i + 1 := hself
      have hocc : occurrences_over (ft.failures_by_instance.lookup i)
            ((i :: rest).count i) ft.max_per_instance_failures =
          (if ((ft.failures_by_instance.lookup i + 1 : Nat) : Int) >
              ft.max_per_instance_failures then 1 else 0) +
            occurrences_over (ft.failures_by_instance.lookup i + 1) (rest.count i)
              ft.max_per_instance_failures := by
        rw [List.count_cons_self]
        rfl
      rw [hocc]
      by_cases hc : ((ft.failures_by_instance.incr i).lookup i : Int) >
          ft.max_per_instance_failures
      · rw [if_pos hc]
        rw [hself] at hc
        rw [if_pos hc]
        show (i :: ((ft.bump i).update_failure_counts rest).1).count i = _
        rw [List.count_cons_self, ih (ft.bump i), hmp, hbump]
        omega
      · rw [if_neg hc]
        rw [hself] at hc
        rw [if_neg hc]
        rw [ih (ft.bump i), hmp, hbump]
        omega
    · have hAi : ¬ A = i := fun h => hiA h.symm
      have hbump : (ft.bump i).failures_by_instance.lookup A =
          ft.failures_by_instance.lookup A :=
        FailureMap.lookup_incr_ne ft.failures_by_instance i A (Ne.symm hiA)
      have hcount : (i :: rest).count A = rest.count A :=
        List.count_cons_of_ne (by simpa using hAi) rest
      rw [hcount]
      by_cases hc : ((ft.failures_by_instance.incr i).lookup i : Int) >
          ft.max_per_instance_failures
      · rw [if_pos hc]
        show (i :: ((ft.bump i).update_failure_counts rest).1).count A = _
        rw [List.count_cons_of_ne (by simpa using hAi), ih (ft.bump i), hmp, hbump]
      · rw [if_neg hc]
        rw [ih (ft.bump i), hmp, hbump]

/-- Once an instance is at or past the limit, every further failure is
over the limit. -/
theorem occurrences_over_eq_of_le (k : Nat) :
    ∀ (c0 : Nat) (mp : Int), mp ≤ (c0 : Int) → occurrences_over c0 k mp = k := by
  induction k with
  | zero =>
    intro c0 mp _
    rfl
  | succ n ih =>
    intro c0 mp h
    show (if ((c0 + 1 : Nat) : Int) > mp then 1 else 0) +
        occurrences_over (c0 + 1) n mp = n + 1
    rw [if_pos (by push_cast; omega), ih (c0 + 1) mp (by push_cast; omega)]
    omega

/-- If the `j`-th further failure crosses the limit, then the `j`-th through
`k`-th further failures are all over the limit. -/
theorem occurrences_over_ge (k : Nat) :
    ∀ (c0 : Nat) (mp : Int) (j : Nat), 1 ≤ j → j ≤ k →
      mp < ((c0 + j : Nat) : Int) → k + 1 - j ≤ occurrences_over c0 k mp := by
  induction k with
  | zero =>
    intro c0 mp j h1 h2 _
    omega
  | succ n ih =>
    intro c0 mp j h1 h2 h3
    show n + 2 - j ≤ (if ((c0 + 1 : Nat) : Int) > mp then 1 else 0) +
        occurrences_over (c0 + 1) n mp
    match j, h1 with
    | 1, _ =>
      have hc : ((c0 + 1 : Nat) : Int) > mp := by push_cast at h3 ⊢; omega
      rw [if_pos hc, occurrences_over_eq_of_le n (c0 + 1) mp (by push_cast at hc ⊢; omega)]
      omega
    | (j' + 2), _ =>
      have := ih (c0 + 1) mp (j' + 1) (by omega) (by omega)
        (by push_cast at h3 ⊢; omega)
      have hsplit : (0 : Nat) ≤ if ((c0 + 1 : Nat) : Int) > mp then 1 else 0 := by
        split <;> omega
      omega

/-- A key already stored survives any sequence of increments. -/
theorem FailureMap.mem_keys_foldl_incr (failed : List InstanceId) (m : FailureMap)
    (j : InstanceId) (h : j ∈ m.keys) :
    j ∈ (failed.foldl FailureMap.incr m).keys := by
  induction failed generalizing m with
  | nil => exact h
  | cons i rest ih =>
    exact ih (m.incr i) ((FailureMap.mem_keys_incr m i j).mpr (Or.inl h))

/-- Every stored count stays at least 1 under any sequence of increments. -/
theorem FailureMap.foldl_incr_pos (failed : List InstanceId) (m : FailureMap)
    (h : ∀ p ∈ m, 1 ≤ p.2) : ∀ p ∈ failed.foldl FailureMap.incr m, 1 ≤ p.2 := by
  induction failed generalizing m with
  | nil => exact h
  | cons i rest ih => exact ih (m.incr i) (FailureMap.incr_pos m i h)

/-- The spec's description of `exceeded_count`: the number of distinct
instance identifiers among the stored keys whose stored counter is strictly
greater than the per-instance limit. -/
def distinct_over_limit_count (ft : FailureThreshold) : Nat :=
  ((ft.failures_by_instance.keys.dedup).filter (fun A =>
      decide ((ft.failures_by_instance.lookup A : Int) >
        ft.max_per_instance_failures))).length

/-- On maps with distinct keys (every map the code ever builds), the code's
boolean sum agrees with the spec's distinct-instance count. -/
theorem distinct_over_limit_count_eq (ft : FailureThreshold)
    (hnd : ft.failures_by_instance.keys.Nodup) :
    distinct_over_limit_count ft = ft.exceeded_instance_fail_count := by
  unfold distinct_over_limit_count FailureThreshold.exceeded_instance_fail_count
  rw [List.dedup_eq_self.mpr hnd, ← List.countP_eq_length_filter]
  unfold FailureMap.keys
  rw [List.countP_map]
  apply List.countP_congr
  intro p hp
  have hlk : ft.failures_by_instance.lookup p.1 = p.2 :=
    FailureMap.lookup_eq_of_mem ft.failures_by_instance p.1 p.2 hnd hp
  simp [Function.comp, hlk]

/-!
### The claims
-/

/-- The accountant state reached from a fresh `FailureThreshold(1, 1)` after
the calls `update_failure_counts([0])` and `update_failure_counts([0])`:
instance `0` is now strictly over the per-instance limit. -/
def c1_state : FailureThreshold :=
  (((FailureThreshold.init 1 1).update_failure_counts [0]).2.update_failure_counts
    [0]).2

/-- Claim C1 is false as stated: instance `0` of `c1_state` is strictly over
the per-instance limit (count 2 > 1), yet a subsequent call
`update_failure_counts([1])` returns a list that does not contain `0` — the
code only ever appends instances of the current batch. -/
theorem c1_prev_exceeded_counterexample :
    ((c1_state.failures_by_instance.lookup 0 : Int) >
        c1_state.max_per_instance_failures) ∧
      0 ∉ (c1_state.update_failure_counts [1]).1 := by decide

/-- Claim C1 (amended): after all increments of a call, the returned
collection contains exactly the instances that occur in this call's
`failed_instances` and whose current cumulative count is strictly greater
than `max_per_instance_failures`; an instance that crossed the threshold in
an earlier call and is absent from this call's batch is not returned. -/
theorem c1_returned_iff_in_batch_and_over_limit (ft : FailureThreshold)
    (failed : List InstanceId) (A : InstanceId) :
    A ∈ (ft.update_failure_counts failed).1 ↔
      A ∈ failed ∧
        (((ft.update_failure_counts failed).2.failures_by_instance.lookup A : Int) >
          ft.max_per_instance_failures) :=
  FailureThreshold.mem_update_fst_iff ft failed A

/-- Claim C2: `is_failed_update` returns true iff the number of distinct
stored instances whose counter is strictly greater than
`max_per_instance_failures` is itself strictly greater than
`max_total_failures`; both comparisons strict.  Stated for maps with
distinct keys, which is every map the defaultdict ever holds. -/
theorem c2_is_failed_update_iff (ft : FailureThreshold)
    (hnd : ft.failures_by_instance.keys.Nodup) :
    (ft.is_failed_update).1 = true ↔
      ((distinct_over_limit_count ft : Int) > ft.max_total_failures) := by
  rw [distinct_over_limit_count_eq ft hnd]
  simp [FailureThreshold.is_failed_update]

/-- Witness for C2 at a concrete over-limit state. -/
theorem c2_is_failed_update_iff_witness :
    ((FailureThreshold.mk 0 0 [(4, 1), (7, 2)]).is_failed_update).1 = true :=
  (c2_is_failed_update_iff (FailureThreshold.mk 0 0 [(4, 1), (7, 2)])
    (by decide)).mpr (by decide)

/-- Claim C3: construction fails, with a message naming the violated field,
iff `batch_size ≤ 0` or `restart_threshold ≤ 0` or `watch_secs ≤ 0`; for all
positive values of those three it succeeds, and the two failure-limit
parameters are accepted unchecked, negative values included. -/
theorem c3_updater_config_validation (b r w mps mtf : Int) :
    ((∃ cfg, UpdaterConfig.construct b r w mps mtf = Except.ok cfg) ↔
      (0 < b ∧ 0 < r ∧ 0 < w))
    ∧ (b ≤ 0 → UpdaterConfig.construct b r w mps mtf =
        Except.error "Batch size should be greater than 0")
    ∧ (0 < b → r ≤ 0 → UpdaterConfig.construct b r w mps mtf =
        Except.error "Restart Threshold should be greater than 0")
    ∧ (0 < b → 0 < r → w ≤ 0 → UpdaterConfig.construct b r w mps mtf =
        Except.error "Watch seconds should be greater than 0")
    ∧ (0 < b → 0 < r → 0 < w → UpdaterConfig.construct b r w mps mtf =
        Except.ok ⟨b, r, w, mtf, mps⟩) := by
  unfold UpdaterConfig.construct
  split_ifs with h1 h2 h3 <;>
    refine ⟨?_, ?_, ?_, ?_, ?_⟩ <;>
    simp <;>
    omega

/-- Witness for C3: negative failure limits are accepted when the three
checked fields are positive, and a non-positive batch size is rejected with
the message naming it. -/
theorem c3_updater_config_validation_witness :
    (UpdaterConfig.construct 1 2 3 (-4) (-5) =
      Except.ok ⟨1, 2, 3, -5, -4⟩) ∧
      (UpdaterConfig.construct 0 2 3 1 1 =
        Except.error "Batch size should be greater than 0") :=
  ⟨(c3_updater_config_validation 1 2 3 (-4) (-5)).2.2.2.2
      (by decide) (by decide) (by decide),
    (c3_updater_config_validation 0 2 3 1 1).2.1 (by decide)⟩

/-- Claim C4: each occurrence of an identifier in `failed_instances`
increments its counter by 1, so `update_failure_counts([A, A])` adds exactly
2 to `A`'s counter and leaves the same state as two consecutive calls with
`[A]`. -/
theorem c4_duplicate_occurrences_each_count (ft : FailureThreshold) (A : InstanceId) :
    ((ft.update_failure_counts [A, A]).2 =
      ((ft.update_failure_counts [A]).2.update_failure_counts [A]).2)
    ∧ ((ft.update_failure_counts [A, A]).2.failures_by_instance.lookup A =
        ft.failures_by_instance.lookup A + 2)
    ∧ (∀ (failed : List InstanceId) (B : InstanceId),
        (ft.update_failure_counts failed).2.failures_by_instance.lookup B =
          ft.failures_by_instance.lookup B + failed.count B) := by
  refine ⟨?_, ?_, fun failed B => FailureThreshold.update_lookup ft failed B⟩
  · rw [FailureThreshold.update_snd, FailureThreshold.update_snd,
      FailureThreshold.update_snd]
    rfl
  · rw [FailureThreshold.update_lookup]
    simp

/-- Claim C5: with a per-instance limit of 1, one failure of `A` is not
over-limit, a second failure (same call or any later call once a failure is
on record) is; with a per-instance limit of 0, the first failure is already
over-limit. -/
theorem c5_per_instance_limit_edges (A : InstanceId) (mt : Int) :
    (A ∉ ((FailureThreshold.init 1 mt).update_failure_counts [A]).1)
    ∧ (A ∈ (((FailureThreshold.init 1 mt).update_failure_counts
        [A]).2.update_failure_counts [A]).1)
    ∧ (A ∈ ((FailureThreshold.init 1 mt).update_failure_counts [A, A]).1)
    ∧ (∀ (ft : FailureThreshold) (failed : List InstanceId),
        ft.max_per_instance_failures = 1 →
        1 ≤ ft.failures_by_instance.lookup A →
        A ∈ failed →
        A ∈ (ft.update_failure_counts failed).1)
    ∧ (A ∈ ((FailureThreshold.init 0 mt).update_failure_counts [A]).1) := by
  refine ⟨?_, ?_, ?_, ?_, ?_⟩
  · rw [FailureThreshold.mem_update_fst_iff]
    rintro ⟨-, hgt⟩
    rw [FailureThreshold.update_lookup] at hgt
    simp [FailureThreshold.init] at hgt
  · rw [FailureThreshold.mem_update_fst_iff]
    refine ⟨List.mem_cons_self A [], ?_⟩
    rw [FailureThreshold.update_lookup, FailureThreshold.update_lookup,
      FailureThreshold.update_max_per]
    simp [FailureThreshold.init]
  · rw [FailureThreshold.mem_update_fst_iff]
    refine ⟨List.mem_cons_self A [A], ?_⟩
    rw [FailureThreshold.update_lookup]
    simp [FailureThreshold.init]
  · intro ft failed h1 h2 h3
    rw [FailureThreshold.mem_update_fst_iff]
    refine ⟨h3, ?_⟩
    rw [FailureThreshold.update_lookup, h1]
    have hcnt : 1 ≤ failed.count A := List.one_le_count_iff.mpr h3
    push_cast
    omega
  · rw [FailureThreshold.mem_update_fst_iff]
    refine ⟨List.mem_cons_self A [], ?_⟩
    rw [FailureThreshold.update_lookup]
    simp [FailureThreshold.init]

/-- Witness for C5: a state with a failure of instance 3 on record and
per-instance limit 1 reports 3 as over-limit on its next failure. -/
theorem c5_per_instance_limit_edges_witness :
    3 ∈ ((FailureThreshold.mk 1 0 [(3, 1)]).update_failure_counts [3]).1 :=
  (c5_per_instance_limit_edges 3 0).2.2.2.1 (FailureThreshold.mk 1 0 [(3, 1)])
    [3] rfl (by decide) (by decide)

/-- Claim C6: an empty batch is a no-op — empty result, identical state,
and `is_failed_update` unchanged afterwards. -/
theorem c6_empty_batch_noop (ft : FailureThreshold) :
    ft.update_failure_counts [] = ([], ft) ∧
      ((ft.update_failure_counts []).2.is_failed_update).1 =
        (ft.is_failed_update).1 :=
  ⟨rfl, rfl⟩

/-- Claim C7: `is_failed_update` mutates nothing — the state after the call
is the state before it (all three fields included), so repeated calls
return the same boolean. -/
theorem c7_is_failed_update_pure (ft : FailureThreshold) :
    (ft.is_failed_update).2 = ft ∧
      ((ft.is_failed_update).2.is_failed_update).1 = (ft.is_failed_update).1 :=
  ⟨rfl, rfl⟩

/-- Claim C8: counters start at zero on first reference, never decrease and
are never removed, every stored entry is at least 1 after any call, and an
instance with zero recorded failures is neither returned over-limit nor a
stored entry feeding `exceeded_instance_fail_count`. -/
theorem c8_counter_invariants (mp mt : Int) (ft : FailureThreshold)
    (failed : List InstanceId) (A : InstanceId)
    (hpos : ∀ p ∈ ft.failures_by_instance, 1 ≤ p.2) :
    ((FailureThreshold.init mp mt).failures_by_instance.lookup A = 0)
    ∧ (ft.failures_by_instance.lookup A ≤
        (ft.update_failure_counts failed).2.failures_by_instance.lookup A)
    ∧ (A ∈ ft.failures_by_instance.keys →
        A ∈ (ft.update_failure_counts failed).2.failures_by_instance.keys)
    ∧ ((ft.is_failed_update).2 = ft)
    ∧ (∀ p ∈ (ft.update_failure_counts failed).2.failures_by_instance, 1 ≤ p.2)
    ∧ ((ft.update_failure_counts failed).2.failures_by_instance.lookup A = 0 →
        A ∉ (ft.update_failure_counts failed).1)
    ∧ (ft.failures_by_instance.lookup A = 0 →
        ∀ p ∈ ft.failures_by_instance, p.1 ≠ A) := by
  refine ⟨rfl, ?_, ?_, rfl, ?_, ?_, ?_⟩
  · rw [FailureThreshold.update_lookup]
    exact Nat.le_add_right _ _
  · intro h
    rw [FailureThreshold.update_snd]
    exact FailureMap.mem_keys_foldl_incr failed ft.failures_by_instance A h
  · rw [FailureThreshold.update_snd]
    exact FailureMap.foldl_incr_pos failed ft.failures_by_instance hpos
  · intro hz hmem
    rw [FailureThreshold.update_lookup] at hz
    have hnot : A ∉ failed := by
      intro hin
      have := List.one_le_count_iff.mpr hin
      omega
    exact hnot ((FailureThreshold.update_fst_sublist ft failed).subset hmem)
  · intro hz p hp hpa
    have := FailureMap.not_mem_keys_of_lookup_zero ft.failures_by_instance A hpos hz
    exact this (hpa ▸ List.mem_map_of_mem Prod.fst hp)

/-- Witness for C8 at a concrete state whose entries are all positive. -/
theorem c8_counter_invariants_witness :
    (FailureThreshold.mk 1 1 [(0, 1)]).failures_by_instance.lookup 0 ≤
      ((FailureThreshold.mk 1 1 [(0, 1)]).update_failure_counts
        [0, 2]).2.failures_by_instance.lookup 0 :=
  (c8_counter_invariants 2 3 (FailureThreshold.mk 1 1 [(0, 1)]) [0, 2] 0
    (by decide)).2.1

/-- Claim C9: with a negative `max_total_failures`, a fresh accountant
already reports the update failed: zero over-limit instances is strictly
greater than a negative limit. -/
theorem c9_negative_total_limit_fresh (mp mt : Int) (h : mt < 0) :
    ((FailureThreshold.init mp mt).is_failed_update).1 = true := by
  simp [FailureThreshold.is_failed_update, FailureThreshold.init,
    FailureThreshold.exceeded_instance_fail_count]
  omega

/-- Witness for C9. -/
theorem c9_negative_total_limit_fresh_witness :
    ((FailureThreshold.init 0 (-1)).is_failed_update).1 = true :=
  c9_negative_total_limit_fresh 0 (-1) (by decide)

/-- Claim C10: the returned value is an ordered list — a subsequence of the
batch — whose number of occurrences of `A` is exactly the number of this
call's occurrences of `A` whose post-increment count is strictly over the
limit; in particular once the `j`-th occurrence crosses, the `j`-th through
`k`-th all appear. -/
theorem c10_returned_occurrences (ft : FailureThreshold)
    (failed : List InstanceId) (A : InstanceId) :
    ((ft.update_failure_counts failed).1.Sublist failed)
    ∧ ((ft.update_failure_counts failed).1.count A =
        occurrences_over (ft.failures_by_instance.lookup A) (failed.count A)
          ft.max_per_instance_failures)
    ∧ (∀ j : Nat, 1 ≤ j → j ≤ failed.count A →
        ft.max_per_instance_failures <
          ((ft.failures_by_instance.lookup A + j : Nat) : Int) →
        failed.count A + 1 - j ≤ (ft.update_failure_counts failed).1.count A) := by
  refine ⟨FailureThreshold.update_fst_sublist ft failed,
    FailureThreshold.count_update_fst ft failed A, ?_⟩
  intro j h1 h2 h3
  rw [FailureThreshold.count_update_fst]
  exact occurrences_over_ge (failed.count A) (ft.failures_by_instance.lookup A)
    ft.max_per_instance_failures j h1 h2 h3

/-- Witness for C10: a triple failure of instance 7 against a fresh
accountant with per-instance limit 1 returns 7 at least twice. -/
theorem c10_returned_occurrences_witness :
    2 ≤ ((FailureThreshold.init 1 0).update_failure_counts [7, 7, 7]).1.count 7 := by
  have h := (c10_returned_occurrences (FailureThreshold.init 1 0) [7, 7, 7] 7).2.2
    2 (by decide) (by decide) (by decide)
  simpa using h

end Aurora
